import Mathlib

/-!
Verification of the country-code lookup engine in `iso_3166_country_codes.py`
and its CLI driver `country_code.py`.

The Python class `CountryCodes` loads a JSON list of records (`Code`, `Name`,
optional `Alias` list) and derives four indices backed by Python dicts and
sets.  We embed the records as a `List CountryRecord` and each Python dict as
an association list in which a fresh binding is prepended and lookup returns
the first matching binding — exactly the observable `dict.get` semantics where
a later write to the same key shadows an earlier one.

The JSON data file itself is not part of the sources; theorems that depend on
properties of the shipped dataset take those properties (codes stored
uppercase and unique, names/aliases case-insensitively unique) as hypotheses,
following the dataset contract stated by the specification.

The fuzzywuzzy similarity backend is external to the repository; `extractOne`
is modelled from the spec, parameterised by an abstract score function.
-/

namespace CountryCodes

/-- One record of the JSON dataset: `Code`, `Name`, and the optional `Alias`
list (absent key modelled as `none`, mirroring `item.get("Alias")`). -/
structure CountryRecord where
  code : String
  name : String
  alias_list : Option (List String)
deriving Repr, DecidableEq

/-- Python's `str.upper()`, modelled as ASCII-uppercasing every character
(all strings in the dataset contract are plain names and alpha codes).
Defined on the character list so that it evaluates in the kernel. -/
def upper (s : String) : String :=
  String.mk (s.data.map Char.toUpper)

/-- `d.get k` on a Python dict modelled as an association list whose most
recent binding for a key comes first: return the value of the first binding
whose key matches, or `none`. -/
def dget : List (String × String) → String → Option String
  | [], _ => none
  | p :: d, k => if p.1 == k then some p.2 else dget d k

/-- `iso_to_country_map`: `{item["Code"]: item["Name"] for item in json_data}`.
Bindings are prepended, so a later record with the same code shadows an
earlier one, as in a Python dict comprehension. -/
def iso_to_country_map (data : List CountryRecord) : List (String × String) :=
  data.foldl (fun m item => (item.code, item.name) :: m) []

/-- The per-record body of the `country_to_iso_map` loop: write the uppercased
name, then each uppercased alias, all mapping to the record's code. -/
def insertRecord (m : List (String × String)) (item : CountryRecord) :
    List (String × String) :=
  (item.alias_list.getD []).foldl (fun m' a => (upper a, item.code) :: m')
    ((upper item.name, item.code) :: m)

/-- `country_to_iso_map`: one pass over records and their aliases, writing
`name.upper() ↦ code` and `alias.upper() ↦ code` into a dict.  The Python
code performs plain dict assignment: a duplicate key is silently
overwritten, no exception is raised. -/
def country_to_iso_map (data : List CountryRecord) : List (String × String) :=
  data.foldl insertRecord []

/-- `set.add` on a set modelled as a duplicate-free list. -/
def setAdd (s : List String) (x : String) : List String :=
  if s.contains x then s else s ++ [x]

/-- `countries`: the set of all names and aliases, exactly as stored. -/
def countries (data : List CountryRecord) : List String :=
  data.foldl (fun s item => (item.alias_list.getD []).foldl setAdd (setAdd s item.name)) []

/-- `upper_country_map`: `{c.upper(): c for c in countries}`. -/
def upper_country_map (data : List CountryRecord) : List (String × String) :=
  (countries data).foldl (fun m c => (upper c, c) :: m) []

/-- `country_from_iso`: `iso_to_country_map.get(iso.upper())`. -/
def country_from_iso (data : List CountryRecord) (iso : String) : Option String :=
  dget (iso_to_country_map data) (upper iso)

/-- `iso_from_country`: `country_to_iso_map.get(country.upper())`. -/
def iso_from_country (data : List CountryRecord) (country : String) : Option String :=
  dget (country_to_iso_map data) (upper country)

/-- A similarity backend: `(query, choices, score_cutoff) ↦` best match with
its score, or `none`.  The real deployment uses fuzzywuzzy's `extractOne`;
when the import fails the repository installs a stub returning `None`. -/
abbrev Backend := String → List String → Nat → Option (String × Nat)

/-- One step of the best-candidate scan in `extractOne`. -/
def extractStep (score : String → String → Nat) (q : String) (cutoff : Nat)
    (acc : Option (String × Nat)) (c : String) : Option (String × Nat) :=
  let s := score q c
  match acc with
  | none => if cutoff ≤ s then some (c, s) else none
  | some p => if p.2 < s then some (c, s) else some p

/-- Modelled from the spec: fuzzywuzzy's `process.extractOne` is not part of
this repository.  Per the spec it runs an approximate string-similarity
search of the query against the candidate pool and returns the single
highest-scoring candidate whose score is at least `score_cutoff`, or `none`
if no candidate qualifies.  The similarity measure is abstract (`score`);
ties keep the earlier candidate, a deterministic choice the spec leaves
open. -/
def extractOne (score : String → String → Nat) (q : String)
    (choices : List String) (score_cutoff : Nat) : Option (String × Nat) :=
  choices.foldl (extractStep score q score_cutoff) none

/-- The stub installed when fuzzywuzzy cannot be imported: always `None`. -/
def extractOneStub : Backend := fun _ _ _ => none

/-- `match_country`: exact/case-insensitive probe of `upper_country_map`
first; otherwise the similarity backend over `countries`; otherwise `None`.
The backend is a parameter so that theorems can quantify over it. -/
def match_country (backend : Backend) (data : List CountryRecord)
    (country : String) (cutoff : Nat := 90) : Option String :=
  match dget (upper_country_map data) (upper country) with
  | some country_match => some country_match
  | none =>
    match backend country (countries data) cutoff with
    | some country_match => some country_match.1
    | none => none

/-- `__getitem__`: `directory[iso]` simply delegates to `country_from_iso`. -/
def getitem (data : List CountryRecord) (iso : String) : Option String :=
  country_from_iso data iso

/-- Python's f-string rendering of an optional string: `None` prints as
the text "None" (as `iso_from_country` in the CLI may). -/
def pyStr : Option String → String
  | none => "None"
  | some s => s

namespace CLI

/-- `country_code.country_from_iso`: the `--iso` mode of the CLI.  Returns the
process exit code together with the printed lines, in order. -/
def country_from_iso (data : List CountryRecord) (iso : String) :
    Int × List String :=
  match CountryCodes.country_from_iso data iso with
  | none => (-1, ["Unknown country ISO: " ++ iso])
  | some country => (0, [iso ++ ": " ++ country])

/-- `country_code.iso_from_country`: the name mode of the CLI.  Calls
`match_country` with its default cutoff of 90. -/
def iso_from_country (backend : Backend) (data : List CountryRecord)
    (country : String) : Int × List String :=
  match match_country backend data country with
  | none => (-1, ["Unknown country: " ++ country])
  | some country_match =>
    (0, [country_match,
         country_match ++ ": " ++
           pyStr (CountryCodes.iso_from_country data country_match)])

end CLI

/-- Result of a Python attribute access on the directory object. -/
inductive AttrResult where
  | classAttr : AttrResult
  | country : String → AttrResult
  | attrError : AttrResult
deriving Repr, DecidableEq

/-- The attribute names defined on class `CountryCodes` itself: the three
JSON index constants, the cached properties, the lookup methods and the two
dunder hooks.  Ordinary Python attribute lookup resolves these without ever
invoking `__getattr__`. -/
def classAttrNames : List String :=
  ["JSON_COUNTRY_CODE", "JSON_COUNTRY_NAME", "JSON_COUNTRY_ALIAS",
   "data_file", "json_data", "iso_to_country_map", "country_to_iso_map",
   "countries", "upper_country_map", "codes",
   "country_from_iso", "iso_from_country", "match_country",
   "__getitem__", "__getattr__"]

/-- The body of the `__getattr__` hook: raise `AttributeError` when
`country_from_iso` returns `None`, otherwise return the country name. -/
def getattr_hook (data : List CountryRecord) (iso : String) : AttrResult :=
  match country_from_iso data iso with
  | none => AttrResult.attrError
  | some country => AttrResult.country country

/-- The full Python attribute protocol on a `CountryCodes` instance:
`__getattr__` is invoked only when ordinary lookup fails, i.e. when the
requested name is not an attribute defined on the class. -/
def attribute_read (data : List CountryRecord) (name : String) : AttrResult :=
  if classAttrNames.contains name then AttrResult.classAttr
  else getattr_hook data name

/-- The `(uppercased key, code)` dict writes performed by one iteration of
the `country_to_iso_map` loop: the record's name first, then its aliases. -/
def recordAssignments (item : CountryRecord) : List (String × String) :=
  (upper item.name, item.code) ::
    (item.alias_list.getD []).map fun a => (upper a, item.code)

/-- The `(uppercased key, code)` dict writes performed by the
`country_to_iso_map` loop, in program order. -/
def assignments (data : List CountryRecord) : List (String × String) :=
  data.flatMap recordAssignments

/-- All uppercased name/alias keys, in write order, with multiplicity. -/
def nameKeys (data : List CountryRecord) : List String :=
  (assignments data).map Prod.fst

/-- All names and aliases in record order, with multiplicity. -/
def rawNames (data : List CountryRecord) : List String :=
  data.flatMap fun item => item.name :: item.alias_list.getD []

/-- A two-record dataset matching the spec's worked example. -/
def usData : List CountryRecord :=
  [⟨"US", "United States", some ["USA"]⟩, ⟨"GB", "United Kingdom", none⟩]

/-- A deliberately corrupt dataset: two records supply the same alias
string "USA". -/
def dupData : List CountryRecord :=
  [⟨"US", "United States", some ["USA"]⟩,
   ⟨"UM", "US Minor Outlying Islands", some ["USA"]⟩]

/-- Invariant of the `extractOne` scan after the candidates in `l` have been
examined: `none` means every candidate so far scored below the cutoff; a
result carries a candidate from `l` with its score, at or above the cutoff
and maximal among the candidates seen. -/
def ExtractInv (score : String → String → Nat) (q : String) (cutoff : Nat)
    (l : List String) (acc : Option (String × Nat)) : Prop :=
  (acc = none → ∀ c ∈ l, score q c < cutoff) ∧
  (∀ c s, acc = some (c, s) → c ∈ l ∧ s = score q c ∧ cutoff ≤ s ∧
    ∀ c' ∈ l, score q c' ≤ s)


end CountryCodes


namespace CountryCodes

/-! ### Association-list lookup lemmas -/

lemma dget_eq_of_mem_of_nodup :
    ∀ (l : List (String × String)), (l.map Prod.fst).Nodup →
      ∀ p ∈ l, dget l p.1 = some p.2 := by
  intro l
  induction l with
  | nil => intro _ p hp; cases hp
  | cons q t ih =>
    intro hnd p hp
    rw [List.map_cons, List.nodup_cons] at hnd
    rcases List.mem_cons.mp hp with hp | hp
    · subst hp
      simp [dget]
    · have hne : (q.1 == p.1) = false := by
        rcases h : (q.1 == p.1) with _ | _
        · rfl
        · exact absurd (List.mem_map_of_mem Prod.fst hp)
            (by rw [← eq_of_beq h]; exact hnd.1)
      simp only [dget, hne, Bool.false_eq_true, if_false]
      exact ih hnd.2 p hp

lemma dget_eq_none :
    ∀ (l : List (String × String)) (k : String), k ∉ l.map Prod.fst →
      dget l k = none := by
  intro l
  induction l with
  | nil => intro _ _; rfl
  | cons q t ih =>
    intro k hk
    rw [List.map_cons, List.mem_cons] at hk
    push_neg at hk
    have hne : (q.1 == k) = false := by
      rcases h : (q.1 == k) with _ | _
      · rfl
      · exact absurd (eq_of_beq h).symm hk.1
    simp only [dget, hne, Bool.false_eq_true, if_false]
    exact ih k hk.2

lemma mem_of_dget_eq_some :
    ∀ (l : List (String × String)) (k v : String), dget l k = some v →
      (k, v) ∈ l := by
  intro l
  induction l with
  | nil => intro _ _ h; cases h
  | cons q t ih =>
    intro k v h
    rcases hq : (q.1 == k) with _ | _
    · simp only [dget, hq, Bool.false_eq_true, if_false] at h
      exact List.mem_cons_of_mem q (ih k v h)
    · simp only [dget, hq, if_true] at h
      have hqe : q = (k, v) := by
        rcases q with ⟨qk, qv⟩
        simp only at hq h
        rw [eq_of_beq hq, Option.some.inj h]
      rw [hqe] at *
      exact List.mem_cons_self (k, v) t

end CountryCodes

namespace CountryCodes

/-! ### The derived indices as reversed write sequences -/

lemma foldl_prepend_map {β : Type} (f : β → String × String) :
    ∀ (l : List β) (m : List (String × String)),
      l.foldl (fun m' x => f x :: m') m = (l.map f).reverse ++ m := by
  intro l
  induction l with
  | nil => intro m; simp
  | cons x t ih =>
    intro m
    simp only [List.foldl_cons, List.map_cons, List.reverse_cons, ih]
    simp

lemma iso_to_country_map_eq (data : List CountryRecord) :
    iso_to_country_map data = (data.map fun r => (r.code, r.name)).reverse := by
  have h := foldl_prepend_map (fun r : CountryRecord => (r.code, r.name)) data []
  simpa [iso_to_country_map] using h

lemma upper_country_map_eq (data : List CountryRecord) :
    upper_country_map data = ((countries data).map fun c => (upper c, c)).reverse := by
  have h := foldl_prepend_map (fun c : String => (upper c, c)) (countries data) []
  simpa [upper_country_map] using h

lemma insertRecord_eq (m : List (String × String)) (item : CountryRecord) :
    insertRecord m item = (recordAssignments item).reverse ++ m := by
  unfold insertRecord recordAssignments
  rw [foldl_prepend_map (fun a : String => (upper a, item.code))]
  simp

lemma foldl_insertRecord (data : List CountryRecord) :
    ∀ m, data.foldl insertRecord m = (assignments data).reverse ++ m := by
  induction data with
  | nil => intro m; simp [assignments]
  | cons item t ih =>
    intro m
    simp only [List.foldl_cons, assignments, List.flatMap_cons, List.reverse_append,
      insertRecord_eq, ih]
    simp [assignments]

lemma country_to_iso_map_eq (data : List CountryRecord) :
    country_to_iso_map data = (assignments data).reverse := by
  have h := foldl_insertRecord data []
  simpa [country_to_iso_map] using h

lemma nameKeys_eq (data : List CountryRecord) :
    nameKeys data = (rawNames data).map upper := by
  induction data with
  | nil => rfl
  | cons item t ih =>
    simp only [nameKeys, assignments, rawNames, List.flatMap_cons, List.map_append] at *
    rw [ih]
    simp [recordAssignments, List.map_map, Function.comp]

end CountryCodes

namespace CountryCodes

/-! ### Properties of the `countries` set -/

lemma mem_setAdd {s : List String} {x y : String} (h : y ∈ setAdd s x) :
    y ∈ s ∨ y = x := by
  unfold setAdd at h
  split at h
  · exact Or.inl h
  · rcases List.mem_append.mp h with h | h
    · exact Or.inl h
    · exact Or.inr (List.mem_singleton.mp h)

lemma setAdd_nodup {s : List String} (x : String) (h : s.Nodup) :
    (setAdd s x).Nodup := by
  unfold setAdd
  split
  · exact h
  · next hc =>
    rw [List.nodup_append]
    refine ⟨h, List.nodup_singleton x, ?_⟩
    intro a ha hax
    rw [List.mem_singleton] at hax
    subst hax
    exact hc (List.elem_eq_true_of_mem ha)

lemma foldl_setAdd_nodup :
    ∀ (al s : List String), s.Nodup → (al.foldl setAdd s).Nodup := by
  intro al
  induction al with
  | nil => intro s h; exact h
  | cons a t ih =>
    intro s h
    exact ih (setAdd s a) (setAdd_nodup a h)

lemma mem_foldl_setAdd :
    ∀ (al s : List String) (y : String), y ∈ al.foldl setAdd s →
      y ∈ s ∨ y ∈ al := by
  intro al
  induction al with
  | nil => intro s y h; exact Or.inl h
  | cons a t ih =>
    intro s y h
    rcases ih (setAdd s a) y h with h' | h'
    · rcases mem_setAdd h' with h'' | h''
      · exact Or.inl h''
      · exact Or.inr (h'' ▸ List.mem_cons_self a t)
    · exact Or.inr (List.mem_cons_of_mem a h')

lemma countries_nodup (data : List CountryRecord) : (countries data).Nodup := by
  unfold countries
  suffices h : ∀ (l : List CountryRecord) (s : List String), s.Nodup →
      (l.foldl (fun s item => (item.alias_list.getD []).foldl setAdd (setAdd s item.name)) s).Nodup by
    exact h data [] List.nodup_nil
  intro l
  induction l with
  | nil => intro s h; exact h
  | cons item t ih =>
    intro s h
    exact ih _ (foldl_setAdd_nodup _ _ (setAdd_nodup item.name h))

lemma mem_countries (data : List CountryRecord) :
    ∀ y ∈ countries data, y ∈ rawNames data := by
  unfold countries
  suffices h : ∀ (l : List CountryRecord) (s : List String) (y : String),
      y ∈ l.foldl (fun s item => (item.alias_list.getD []).foldl setAdd (setAdd s item.name)) s →
      y ∈ s ∨ y ∈ rawNames l by
    intro y hy
    rcases h data [] y hy with h' | h'
    · cases h'
    · exact h'
  intro l
  induction l with
  | nil => intro s y h; exact Or.inl h
  | cons item t ih =>
    intro s y h
    rcases ih _ y h with h' | h'
    · rcases mem_foldl_setAdd _ _ y h' with h'' | h''
      · rcases mem_setAdd h'' with h3 | h3
        · exact Or.inl h3
        · refine Or.inr ?_
          rw [rawNames, List.flatMap_cons]
          exact List.mem_append_left _ (h3 ▸ List.mem_cons_self _ _)
      · refine Or.inr ?_
        rw [rawNames, List.flatMap_cons]
        exact List.mem_append_left _ (List.mem_cons_of_mem _ h'')
    · refine Or.inr ?_
      rw [rawNames, List.flatMap_cons]
      exact List.mem_append_right _ (by simpa [rawNames] using h')

/-- Under the dataset contract (case-insensitively unique names/aliases),
uppercasing is injective on the `countries` set and the keys of
`upper_country_map` are therefore duplicate-free. -/
lemma countries_map_upper_nodup (data : List CountryRecord)
    (h : (nameKeys data).Nodup) : ((countries data).map upper).Nodup := by
  rw [nameKeys_eq] at h
  have hinj := List.inj_on_of_nodup_map h
  exact (countries_nodup data).map_on fun x hx y hy hxy =>
    hinj (mem_countries data x hx) (mem_countries data y hy) hxy

end CountryCodes

namespace CountryCodes

/-! ### The best-candidate scan of `extractOne` -/

lemma extractStep_inv (score : String → String → Nat) (q : String)
    (cutoff : Nat) (l : List String) (acc : Option (String × Nat)) (c : String)
    (h : ExtractInv score q cutoff l acc) :
    ExtractInv score q cutoff (l ++ [c]) (extractStep score q cutoff acc c) := by
  obtain ⟨hn, hs⟩ := h
  cases acc with
  | none =>
    by_cases hc : cutoff ≤ score q c
    · refine ⟨fun h' => ?_, fun c0 s0 he => ?_⟩
      · simp [extractStep, hc] at h'
      · simp only [extractStep, hc, if_true] at he
        obtain ⟨rfl, rfl⟩ := Prod.mk.injEq .. ▸ Option.some.inj he
        refine ⟨List.mem_append_right _ (List.mem_singleton_self c), rfl, hc, ?_⟩
        intro c' hc'
        rcases List.mem_append.mp hc' with hc' | hc'
        · exact le_of_lt (lt_of_lt_of_le (hn rfl c' hc') hc)
        · rw [List.mem_singleton.mp hc']
    · refine ⟨fun _ c' hc' => ?_, fun c0 s0 he => ?_⟩
      · rcases List.mem_append.mp hc' with hc' | hc'
        · exact hn rfl c' hc'
        · rw [List.mem_singleton.mp hc']
          exact lt_of_not_le hc
      · simp [extractStep, hc] at he
  | some p =>
    obtain ⟨hmem, hsc, hcut, hmax⟩ := hs p.1 p.2 rfl
    by_cases hlt : p.2 < score q c
    · refine ⟨fun h' => ?_, fun c0 s0 he => ?_⟩
      · simp [extractStep, hlt] at h'
      · simp only [extractStep, hlt, if_true] at he
        obtain ⟨rfl, rfl⟩ := Prod.mk.injEq .. ▸ Option.some.inj he
        refine ⟨List.mem_append_right _ (List.mem_singleton_self c), rfl,
          le_of_lt (lt_of_le_of_lt hcut hlt), ?_⟩
        intro c' hc'
        rcases List.mem_append.mp hc' with hc' | hc'
        · exact le_of_lt (lt_of_le_of_lt (hmax c' hc') hlt)
        · rw [List.mem_singleton.mp hc']
    · refine ⟨fun h' => ?_, fun c0 s0 he => ?_⟩
      · simp [extractStep, hlt] at h'
      · simp only [extractStep, hlt, if_false] at he
        have hpe : p = (c0, s0) := Option.some.inj he
        subst hpe
        refine ⟨List.mem_append_left _ hmem, hsc, hcut, ?_⟩
        intro c' hc'
        rcases List.mem_append.mp hc' with hc' | hc'
        · exact hmax c' hc'
        · rw [List.mem_singleton.mp hc']
          exact le_of_not_lt hlt

lemma foldl_extractStep_inv (score : String → String → Nat) (q : String)
    (cutoff : Nat) :
    ∀ (choices l : List String) (acc : Option (String × Nat)),
      ExtractInv score q cutoff l acc →
      ExtractInv score q cutoff (l ++ choices)
        (choices.foldl (extractStep score q cutoff) acc) := by
  intro choices
  induction choices with
  | nil => intro l acc h; simpa using h
  | cons c cs ih =>
    intro l acc h
    have h2 := ih (l ++ [c]) _ (extractStep_inv score q cutoff l acc c h)
    simpa [List.append_assoc] using h2

lemma extractOne_inv (score : String → String → Nat) (q : String)
    (choices : List String) (cutoff : Nat) :
    ExtractInv score q cutoff choices (extractOne score q choices cutoff) := by
  have h0 : ExtractInv score q cutoff [] none := by
    refine ⟨fun _ c hc => absurd hc (List.not_mem_nil c), fun c s h => ?_⟩
    cases h
  have h := foldl_extractStep_inv score q cutoff choices [] none h0
  simpa [extractOne] using h

lemma extractOne_some_spec {score : String → String → Nat} {q : String}
    {choices : List String} {cutoff : Nat} {c : String} {s : Nat}
    (h : extractOne score q choices cutoff = some (c, s)) :
    c ∈ choices ∧ s = score q c ∧ cutoff ≤ s ∧ ∀ c' ∈ choices, score q c' ≤ s :=
  (extractOne_inv score q choices cutoff).2 c s h

lemma extractOne_eq_none {score : String → String → Nat} {q : String}
    {choices : List String} {cutoff : Nat}
    (h : ∀ c ∈ choices, score q c < cutoff) :
    extractOne score q choices cutoff = none := by
  cases he : extractOne score q choices cutoff with
  | none => rfl
  | some p =>
    obtain ⟨hmem, hsc, hcut, _⟩ :=
      extractOne_some_spec (c := p.1) (s := p.2) (by rw [← he])
    exact absurd hcut (not_le.mpr (hsc ▸ h p.1 hmem))

end CountryCodes

namespace CountryCodes

/-! ### Lookup lemmas for the concrete indices -/

lemma dget_eq_find? :
    ∀ (l : List (String × String)) (k : String),
      dget l k = (l.find? fun p => p.1 == k).map Prod.snd := by
  intro l
  induction l with
  | nil => intro k; rfl
  | cons q t ih =>
    intro k
    rw [List.find?_cons]
    rcases h : (q.1 == k) with _ | _
    · simp only [dget, h, Bool.false_eq_true, if_false]
      exact ih k
    · simp only [dget, h, if_true]
      rfl

lemma name_assignment_mem {data : List CountryRecord} {r : CountryRecord}
    (hr : r ∈ data) : (upper r.name, r.code) ∈ assignments data :=
  List.mem_flatMap.mpr ⟨r, hr, List.mem_cons_self _ _⟩

lemma alias_assignment_mem {data : List CountryRecord} {r : CountryRecord}
    (hr : r ∈ data) {a : String} (ha : a ∈ r.alias_list.getD []) :
    (upper a, r.code) ∈ assignments data :=
  List.mem_flatMap.mpr
    ⟨r, hr, List.mem_cons_of_mem _ (List.mem_map_of_mem _ ha)⟩

lemma dget_country_to_iso {data : List CountryRecord}
    (hnd : (nameKeys data).Nodup) {k c : String}
    (hmem : (k, c) ∈ assignments data) :
    dget (country_to_iso_map data) k = some c := by
  rw [country_to_iso_map_eq]
  have hkeys : (((assignments data).reverse).map Prod.fst).Nodup := by
    rw [List.map_reverse, List.nodup_reverse]
    exact hnd
  exact dget_eq_of_mem_of_nodup _ hkeys (k, c) (List.mem_reverse.mpr hmem)

lemma dget_upper_country_map {data : List CountryRecord}
    (hnd : (nameKeys data).Nodup) {m : String} (hm : m ∈ countries data) :
    dget (upper_country_map data) (upper m) = some m := by
  rw [upper_country_map_eq]
  have hkeys :
      ((((countries data).map fun c => (upper c, c)).reverse).map Prod.fst).Nodup := by
    rw [List.map_reverse, List.nodup_reverse, List.map_map]
    simpa [Function.comp] using countries_map_upper_nodup data hnd
  exact dget_eq_of_mem_of_nodup _ hkeys (upper m, m)
    (List.mem_reverse.mpr (List.mem_map_of_mem _ hm))

lemma countries_mem_of_upper_map {data : List CountryRecord} {k m : String}
    (h : dget (upper_country_map data) k = some m) : m ∈ countries data := by
  have hmem := mem_of_dget_eq_some _ _ _ h
  rw [upper_country_map_eq, List.mem_reverse] at hmem
  obtain ⟨c, hc, he⟩ := List.mem_map.mp hmem
  injection he with h1 h2
  subst h2
  exact hc

lemma country_from_iso_of_record {data : List CountryRecord}
    (hup : ∀ r ∈ data, upper r.code = r.code)
    (hnd : (data.map fun r => r.code).Nodup) {r : CountryRecord}
    (hr : r ∈ data) {s : String} (hs : upper s = upper r.code) :
    country_from_iso data s = some r.name := by
  unfold country_from_iso
  rw [hs, hup r hr, iso_to_country_map_eq]
  have hpair : (r.code, r.name) ∈ (data.map fun r => (r.code, r.name)).reverse :=
    List.mem_reverse.mpr (List.mem_map_of_mem _ hr)
  have hkeys : (((data.map fun r => (r.code, r.name)).reverse).map Prod.fst).Nodup := by
    rw [List.map_reverse, List.nodup_reverse, List.map_map]
    simpa [Function.comp] using hnd
  exact dget_eq_of_mem_of_nodup _ hkeys (r.code, r.name) hpair

lemma iso_from_country_of_name {data : List CountryRecord}
    (hnames : (nameKeys data).Nodup) {r : CountryRecord} (hr : r ∈ data)
    {s : String} (hs : upper s = upper r.name) :
    iso_from_country data s = some r.code := by
  unfold iso_from_country
  rw [hs]
  exact dget_country_to_iso hnames (name_assignment_mem hr)

lemma iso_from_country_of_alias {data : List CountryRecord}
    (hnames : (nameKeys data).Nodup) {r : CountryRecord} (hr : r ∈ data)
    {a : String} (ha : a ∈ r.alias_list.getD []) {s : String}
    (hs : upper s = upper a) : iso_from_country data s = some r.code := by
  unfold iso_from_country
  rw [hs]
  exact dget_country_to_iso hnames (alias_assignment_mem hr ha)

end CountryCodes

namespace CountryCodes

/-! ### Claims -/

/-- C1 (counterexample): the claim says a duplicate name/alias must raise a
fatal `DuplicateNameError` and abort index construction.  The code's
`country_to_iso_map` loop performs plain dict assignment and raises
nothing: on `dupData`, whose two records both supply the alias "USA",
construction completes, the resulting dict carries the later record's write
for "USA" foremost, and `iso_from_country` silently resolves "usa" to the
later record's code "UM" — the earlier binding "USA" ↦ "US" is
overwritten. -/
theorem c1_counterexample :
    country_to_iso_map dupData =
      [("USA", "UM"), ("US MINOR OUTLYING ISLANDS", "UM"),
       ("USA", "US"), ("UNITED STATES", "US")] ∧
    iso_from_country dupData "usa" = some "UM" := by
  constructor
  · decide
  · decide

/-- C1 (amended): building the name-to-code index is a total function of the
dataset and never fails: when any two records (or a record's name and any
alias, case-insensitively) supply the same name or alias string, the write
performed last in program order silently wins — looking up any key returns
the value of the most recent assignment to it, with no error raised. -/
theorem c1_last_write_wins (data : List CountryRecord) (k : String) :
    dget (country_to_iso_map data) k =
      ((assignments data).reverse.find? fun p => p.1 == k).map Prod.snd := by
  rw [country_to_iso_map_eq, dget_eq_find?]

/-- C2: for every record of a dataset satisfying the documented contract
(codes stored uppercase and pairwise distinct) and for every casing variant
of that record's code, `country_from_iso` returns exactly the record's
canonical name. -/
theorem c2_code_to_name (data : List CountryRecord)
    (hup : ∀ r ∈ data, upper r.code = r.code)
    (hnd : (data.map fun r => r.code).Nodup)
    (r : CountryRecord) (hr : r ∈ data) (s : String)
    (hs : upper s = upper r.code) :
    country_from_iso data s = some r.name :=
  country_from_iso_of_record hup hnd hr hs

/-- C2 (witness): on the two-record sample dataset, the lowercase variant
"us" of the stored code "US" resolves to "United States". -/
theorem c2_witness :
    (∀ r ∈ usData, upper r.code = r.code) ∧
    ((usData.map fun r => r.code).Nodup) ∧
    country_from_iso usData "us" = some "United States" :=
  ⟨by decide, by decide,
    c2_code_to_name usData (by decide) (by decide)
      ⟨"US", "United States", some ["USA"]⟩ (by decide) "us" (by decide)⟩

/-- C3: whenever the uppercased query is a key of `upper_country_map`,
`match_country` returns the correctly-cased stored name or alias bound to
it, for every backend and every cutoff — the approximate-matching backend
is never consulted on this path. -/
theorem c3_exact_path (backend : Backend) (data : List CountryRecord)
    (query : String) (cutoff : Nat) (m : String)
    (h : dget (upper_country_map data) (upper query) = some m) :
    match_country backend data query cutoff = some m := by
  unfold match_country
  rw [h]

/-- C3 (witness): `match_country "usa"` resolves to the stored alias "USA"
through the exact path even with the fuzzywuzzy stub as backend and a
cutoff of 0. -/
theorem c3_witness :
    dget (upper_country_map usData) (upper "usa") = some "USA" ∧
    match_country extractOneStub usData "usa" 0 = some "USA" :=
  ⟨by decide, c3_exact_path extractOneStub usData "usa" 0 "USA" (by decide)⟩

end CountryCodes

namespace CountryCodes

/-- C4: when the exact path misses, `match_country` with the modelled
fuzzywuzzy backend returns exactly the candidate produced by `extractOne`,
which is a member of the candidate pool carrying its own score, at or above
the cutoff and maximal over the pool; it returns `none` whenever every
candidate scores below the cutoff (in particular on an empty pool), and
`none` with the unavailable-backend stub.  All paths are total functions:
no error is ever raised. -/
theorem c4_fuzzy_path (score : String → String → Nat)
    (data : List CountryRecord) (query : String) (cutoff : Nat)
    (hmiss : dget (upper_country_map data) (upper query) = none) :
    (∀ c s, extractOne score query (countries data) cutoff = some (c, s) →
      match_country (extractOne score) data query cutoff = some c ∧
      c ∈ countries data ∧ s = score query c ∧ cutoff ≤ s ∧
      ∀ c' ∈ countries data, score query c' ≤ s) ∧
    ((∀ c ∈ countries data, score query c < cutoff) →
      match_country (extractOne score) data query cutoff = none) ∧
    match_country extractOneStub data query cutoff = none := by
  refine ⟨?_, ?_, ?_⟩
  · intro c s he
    obtain ⟨hmem, hsc, hcut, hmax⟩ := extractOne_some_spec he
    refine ⟨?_, hmem, hsc, hcut, hmax⟩
    unfold match_country
    rw [hmiss, he]
  · intro hall
    unfold match_country
    rw [hmiss, extractOne_eq_none hall]
  · unfold match_country
    rw [hmiss]
    rfl

/-- C4 (witness): on the sample dataset, a nonsense query misses the exact
path and the stub backend yields `none` rather than an error. -/
theorem c4_witness :
    match_country extractOneStub usData "Xyzzyabc" 90 = none :=
  (c4_fuzzy_path (fun _ _ => 0) usData "Xyzzyabc" 90 (by decide)).2.2

/-- C5: round-trip — for every code of a record in a dataset satisfying the
documented contract, feeding `country_from_iso`'s answer back through
`iso_from_country` recovers exactly that code. -/
theorem c5_round_trip (data : List CountryRecord)
    (hup : ∀ r ∈ data, upper r.code = r.code)
    (hcodes : (data.map fun r => r.code).Nodup)
    (hnames : (nameKeys data).Nodup)
    (r : CountryRecord) (hr : r ∈ data) :
    (country_from_iso data r.code).bind (iso_from_country data) =
      some r.code := by
  rw [country_from_iso_of_record hup hcodes hr rfl, Option.some_bind]
  exact iso_from_country_of_name hnames hr rfl

/-- C5 (witness): the round trip on the stored code "US" of the sample
dataset. -/
theorem c5_witness :
    (country_from_iso usData "US").bind (iso_from_country usData) =
      some "US" :=
  c5_round_trip usData (by decide) (by decide) (by decide)
    ⟨"US", "United States", some ["USA"]⟩ (by decide)

/-- C6: `match_country` is idempotent on its successful results, for every
backend drawing its candidates from the `countries` pool (both the modelled
fuzzywuzzy `extractOne` and the unavailable-backend stub do) and every
dataset with case-insensitively unique names and aliases: a returned name
is itself matched exactly, to itself. -/
theorem c6_idempotent (backend : Backend) (data : List CountryRecord)
    (x : String) (cutoff : Nat) (m : String)
    (hnames : (nameKeys data).Nodup)
    (hb : ∀ q co c s, backend q (countries data) co = some (c, s) →
      c ∈ countries data)
    (h : match_country backend data x cutoff = some m) :
    match_country backend data m cutoff = some m := by
  have hm : m ∈ countries data := by
    unfold match_country at h
    cases he : dget (upper_country_map data) (upper x) with
    | some v =>
      rw [he] at h
      cases h
      exact countries_mem_of_upper_map he
    | none =>
      rw [he] at h
      cases hb2 : backend x (countries data) cutoff with
      | none => rw [hb2] at h; cases h
      | some p =>
        rw [hb2] at h
        cases h
        exact hb x cutoff p.1 p.2 hb2
  unfold match_country
  rw [dget_upper_country_map hnames hm]

/-- C6 (witness): matching "usa" returns the stored alias "USA"; matching
the result again returns it unchanged. -/
theorem c6_witness :
    match_country extractOneStub usData "USA" 90 = some "USA" :=
  c6_idempotent extractOneStub usData "usa" 90 "USA" (by decide)
    (fun _ _ _ _ hcontra => nomatch hcontra) (by decide)

/-- C7: `iso_from_country` resolves every casing of every canonical name and
every alias of a contract-satisfying dataset to the owning record's code,
and returns `none` for any query whose uppercasing is not a stored
name/alias key; by definition it consults no similarity backend. -/
theorem c7_name_to_code (data : List CountryRecord)
    (hnames : (nameKeys data).Nodup) :
    (∀ r ∈ data, ∀ s : String,
      (upper s = upper r.name ∨ ∃ a ∈ r.alias_list.getD [], upper s = upper a) →
      iso_from_country data s = some r.code) ∧
    (∀ q : String, upper q ∉ nameKeys data → iso_from_country data q = none) := by
  constructor
  · intro r hr s hs
    rcases hs with hs | ⟨a, ha, hs⟩
    · exact iso_from_country_of_name hnames hr hs
    · exact iso_from_country_of_alias hnames hr ha hs
  · intro q hq
    unfold iso_from_country
    rw [country_to_iso_map_eq]
    apply dget_eq_none
    rw [List.map_reverse, List.mem_reverse]
    exact hq

/-- C7 (witness): on the sample dataset, "usa" (an alias casing) resolves to
"US", and "Atlantis" (no stored name or alias) yields `none`. -/
theorem c7_witness :
    iso_from_country usData "usa" = some "US" ∧
    iso_from_country usData "Atlantis" = none := by
  have h := c7_name_to_code usData (by decide)
  exact ⟨h.1 ⟨"US", "United States", some ["USA"]⟩ (by decide) "usa"
      (Or.inr ⟨"USA", by decide, by decide⟩),
    h.2 "Atlantis" (by decide)⟩

end CountryCodes

namespace CountryCodes

/-- C8: the CLI exit/output contract.  In `--iso` mode the exit status is 0
exactly when the query resolves; a resolved code prints `<code>: <name>`
(one line) and an unresolved one prints `Unknown country ISO: <query>`,
returning -1 (non-zero).  In name mode the exit status is likewise 0
exactly when `match_country` (at its default cutoff 90) resolves. -/
theorem c8_cli_contract (backend : Backend) (data : List CountryRecord)
    (iso q : String) :
    ((CLI.country_from_iso data iso).1 = 0 ↔
      country_from_iso data iso ≠ none) ∧
    (∀ n, country_from_iso data iso = some n →
      CLI.country_from_iso data iso = (0, [iso ++ ": " ++ n])) ∧
    (country_from_iso data iso = none →
      CLI.country_from_iso data iso = (-1, ["Unknown country ISO: " ++ iso])) ∧
    ((CLI.iso_from_country backend data q).1 = 0 ↔
      match_country backend data q ≠ none) := by
  refine ⟨?_, ?_, ?_, ?_⟩
  · unfold CLI.country_from_iso
    cases h : country_from_iso data iso <;> simp [h]
  · intro n hn
    unfold CLI.country_from_iso
    rw [hn]
  · intro hn
    unfold CLI.country_from_iso
    rw [hn]
  · unfold CLI.iso_from_country
    cases h : match_country backend data q <;> simp [h]

/-- C8 (witness): `--iso US` on the sample dataset prints
"US: United States" and exits 0. -/
theorem c8_witness :
    CLI.country_from_iso usData "US" = (0, ["US: United States"]) :=
  (c8_cli_contract extractOneStub usData "US" "x").2.1 "United States"
    (by decide)

/-- C9: indexing the directory (`__getitem__`) is the very same operation as
`country_from_iso`, for every dataset and every string, including the
`none` answer on an unknown code. -/
theorem c9_getitem_eq (data : List CountryRecord) (iso : String) :
    getitem data iso = country_from_iso data iso := rfl

/-- C10 (counterexample): the claim quantifies over every string, but
"codes" names a cached property defined on the class, so ordinary Python
attribute lookup resolves it and the `__getattr__` hook never runs: the
access returns the class attribute and does not raise, even though
`country_from_iso` has no entry for "codes". -/
theorem c10_counterexample :
    country_from_iso usData "codes" = none ∧
    attribute_read usData "codes" = AttrResult.classAttr ∧
    attribute_read usData "codes" ≠ AttrResult.attrError := by
  refine ⟨by decide, by decide, by decide⟩

/-- C10 (amended): for every string that does not name an attribute defined
on the class — so that ordinary lookup fails and the `__getattr__` fallback
is invoked — attribute access raises `AttributeError` exactly when
`country_from_iso` is absent, and returns `country_from_iso`'s value
otherwise. -/
theorem c10_getattr_fallback (data : List CountryRecord) (name : String)
    (h : classAttrNames.contains name = false) :
    (country_from_iso data name = none →
      attribute_read data name = AttrResult.attrError) ∧
    (∀ c, country_from_iso data name = some c →
      attribute_read data name = AttrResult.country c) := by
  constructor
  · intro hn
    simp only [attribute_read, h, Bool.false_eq_true, if_false]
    unfold getattr_hook
    rw [hn]
  · intro c hc
    simp only [attribute_read, h, Bool.false_eq_true, if_false]
    unfold getattr_hook
    rw [hc]

/-- C10 (witness): reading the attribute "ZZ" — not a class attribute, not a
stored code — raises `AttributeError`, while reading "us" returns the
resolved country. -/
theorem c10_witness :
    attribute_read usData "ZZ" = AttrResult.attrError ∧
    attribute_read usData "us" = AttrResult.country "United States" :=
  ⟨(c10_getattr_fallback usData "ZZ" (by decide)).1 (by decide),
    (c10_getattr_fallback usData "us" (by decide)).2 "United States" (by decide)⟩

end CountryCodes
